import Mathlib

/-!
Verification of the digest abstraction layer declared in
`src/src/common/crypto_digest.h` (tor).  The repository ships only the
header; the bodies live in `crypto_digest.c`, which is not part of the
sources.  Every operation below is therefore modelled from the spec,
faithful to the declared C signatures.  Bytes are modelled as `Nat`,
byte strings as `List Nat`; the underlying hash backend (spec section 6:
an external collaborator providing `init`/`update`/`final`) is an explicit
function parameter threaded through the operations.
-/

/-- The five digest algorithms, from `crypto_digest.h` lines 47-53. -/
inductive digest_algorithm_t
  | DIGEST_SHA1
  | DIGEST_SHA256
  | DIGEST_SHA512
  | DIGEST_SHA3_256
  | DIGEST_SHA3_512
deriving DecidableEq

/-- Length of the output of the SHA-1 message digest (`crypto_digest.h` line 20). -/
def DIGEST_LEN : Nat := 20

/-- Length of the output of the 256-bit message digests (`crypto_digest.h` line 23). -/
def DIGEST256_LEN : Nat := 32

/-- Length of the output of the 512-bit message digests (`crypto_digest.h` line 25). -/
def DIGEST512_LEN : Nat := 64

/-- Number of common digest algorithms, `DIGEST_SHA256 + 1` (`crypto_digest.h` line 55). -/
abbrev N_COMMON_DIGEST_ALGORITHMS : Nat := 2

/-- Modelled from the spec: `crypto_digest_algorithm_get_length` is declared in
`crypto_digest.h` line 98 and implemented in the missing `crypto_digest.c`.
Each algorithm has the fixed byte length given by the header's
`DIGEST_LEN` / `DIGEST256_LEN` / `DIGEST512_LEN` macros. -/
def crypto_digest_algorithm_get_length : digest_algorithm_t → Nat
  | .DIGEST_SHA1 => DIGEST_LEN
  | .DIGEST_SHA256 => DIGEST256_LEN
  | .DIGEST_SHA512 => DIGEST512_LEN
  | .DIGEST_SHA3_256 => DIGEST256_LEN
  | .DIGEST_SHA3_512 => DIGEST512_LEN

/-- Modelled from the spec: `crypto_digest_algorithm_get_name` is declared in
`crypto_digest.h` line 97, implemented in the missing `crypto_digest.c`.
One canonical lowercase name per algorithm (spec section 3). -/
def crypto_digest_algorithm_get_name : digest_algorithm_t → String
  | .DIGEST_SHA1 => "sha1"
  | .DIGEST_SHA256 => "sha256"
  | .DIGEST_SHA512 => "sha512"
  | .DIGEST_SHA3_256 => "sha3-256"
  | .DIGEST_SHA3_512 => "sha3-512"

/-- Modelled from the spec: `crypto_digest_algorithm_parse_name` is declared in
`crypto_digest.h` line 99, implemented in the missing `crypto_digest.c`.
Exact case-sensitive match against the canonical names; failure
(`UnrecognizedName`, C return value -1) is `none`. -/
def crypto_digest_algorithm_parse_name (name : String) : Option digest_algorithm_t :=
  if name = "sha1" then some .DIGEST_SHA1
  else if name = "sha256" then some .DIGEST_SHA256
  else if name = "sha512" then some .DIGEST_SHA512
  else if name = "sha3-256" then some .DIGEST_SHA3_256
  else if name = "sha3-512" then some .DIGEST_SHA3_512
  else none

/-- The external hash backend (spec section 6): for each algorithm, a function
from the full accumulated byte string to its fixed-length digest.  The core
only sequences calls to it, so it is a parameter of the model. -/
abbrev Backend := digest_algorithm_t → List Nat → List Nat

/-- Modelled from the spec: the opaque incremental state `struct crypto_digest_t`
(`crypto_digest.h` line 69, body in the missing `crypto_digest.c`): the
algorithm it was created for plus the bytes accumulated so far. -/
structure crypto_digest_t where
  algorithm : digest_algorithm_t
  accumulated : List Nat
deriving DecidableEq

/-- Modelled from the spec: `crypto_digest_new` (`crypto_digest.h` line 100),
legacy constructor with fresh empty state for the default algorithm SHA-1. -/
def crypto_digest_new : crypto_digest_t :=
  { algorithm := .DIGEST_SHA1, accumulated := [] }

/-- Modelled from the spec: `crypto_digest256_new` (`crypto_digest.h` line 101),
fresh empty state for the given algorithm. -/
def crypto_digest256_new (algorithm : digest_algorithm_t) : crypto_digest_t :=
  { algorithm := algorithm, accumulated := [] }

/-- Modelled from the spec: `crypto_digest512_new` (`crypto_digest.h` line 102),
fresh empty state for the given algorithm. -/
def crypto_digest512_new (algorithm : digest_algorithm_t) : crypto_digest_t :=
  { algorithm := algorithm, accumulated := [] }

/-- Modelled from the spec: `crypto_digest_add_bytes` (`crypto_digest.h`
lines 106-107), accumulates bytes into the running hash. -/
def crypto_digest_add_bytes (digest : crypto_digest_t) (data : List Nat) : crypto_digest_t :=
  { algorithm := digest.algorithm, accumulated := digest.accumulated ++ data }

/-- Modelled from the spec: `crypto_digest_get_digest` (`crypto_digest.h`
lines 108-109).  Reading is "duplicate, finalize the duplicate, discard the
duplicate" (spec section 3), and the C signature takes an explicit `out_len`:
the first `out_len` bytes of the full digest are written out.  The pair
returns the output bytes together with the context as the operation leaves
it. -/
def crypto_digest_get_digest (H : Backend) (digest : crypto_digest_t)
    (out_len : Nat) : List Nat × crypto_digest_t :=
  ((H digest.algorithm digest.accumulated).take out_len, digest)

/-- Modelled from the spec: `crypto_digest_dup` (`crypto_digest.h` line 110),
a deep copy with identical algorithm and accumulated state. -/
def crypto_digest_dup (digest : crypto_digest_t) : crypto_digest_t :=
  { algorithm := digest.algorithm, accumulated := digest.accumulated }

/-- Error values of the layer (spec section 7 taxonomy). -/
inductive digest_error
  | AlgorithmMismatch
deriving DecidableEq

/-- Modelled from the spec: `crypto_digest_assign` (`crypto_digest.h`
lines 111-112) overwrites the destination's accumulated state with the
source's; it fails with `AlgorithmMismatch` when the two contexts were
created with different algorithms, leaving the destination unchanged
(an error result means no new destination state is produced). -/
def crypto_digest_assign (into fr : crypto_digest_t) :
    Except digest_error crypto_digest_t :=
  if into.algorithm = fr.algorithm then
    Except.ok { algorithm := into.algorithm, accumulated := fr.accumulated }
  else
    Except.error digest_error.AlgorithmMismatch

/-- Modelled from the spec: the one-shot SHA-1 digest `crypto_digest`
(`crypto_digest.h` line 83): equivalent to create+append+finalize. -/
def crypto_digest (H : Backend) (m : List Nat) : List Nat :=
  H .DIGEST_SHA1 m

/-- Modelled from the spec: the one-shot 256-bit digest `crypto_digest256`
(`crypto_digest.h` lines 84-85): equivalent to create+append+finalize for
the given algorithm. -/
def crypto_digest256 (H : Backend) (m : List Nat)
    (algorithm : digest_algorithm_t) : List Nat :=
  H algorithm m

/-- Modelled from the spec: the one-shot 512-bit digest `crypto_digest512`
(`crypto_digest.h` lines 86-87). -/
def crypto_digest512 (H : Backend) (m : List Nat)
    (algorithm : digest_algorithm_t) : List Nat :=
  H algorithm m

/-- Dispatch to the one-shot function of the header that covers the given
algorithm: `crypto_digest` for SHA-1, `crypto_digest256` for the 256-bit
digests, `crypto_digest512` for the 512-bit ones. -/
def oneShotOf (H : Backend) (a : digest_algorithm_t) (m : List Nat) : List Nat :=
  match a with
  | .DIGEST_SHA1 => crypto_digest H m
  | .DIGEST_SHA256 => crypto_digest256 H m a
  | .DIGEST_SHA3_256 => crypto_digest256 H m a
  | .DIGEST_SHA512 => crypto_digest512 H m a
  | .DIGEST_SHA3_512 => crypto_digest512 H m a

/-- A concrete backend used to evaluate the model on closed inputs: the
message right-padded with zero bytes and truncated to the algorithm's
digest length.  Well-formed: every output has the registered length. -/
def padBackend : Backend := fun a m =>
  (m ++ List.replicate (crypto_digest_algorithm_get_length a) 0).take
    (crypto_digest_algorithm_get_length a)

/-- A concrete backend used to evaluate the model on closed inputs: the
identity on the accumulated bytes.  Injective for every algorithm. -/
def idBackend : Backend := fun _ m => m

example : padBackend .DIGEST_SHA1 [1, 2] =
    [1, 2, 0, 0, 0, 0, 0, 0, 0, 0, 0, 0, 0, 0, 0, 0, 0, 0, 0, 0] := by decide

example : (crypto_digest_get_digest idBackend
    (crypto_digest_add_bytes crypto_digest_new [7, 8]) 5).1 = [7, 8] := by decide

/-- Modelled from the spec: `common_digests_t` (`crypto_digest.h` lines 65-67),
one `DIGEST256_LEN`-byte slot per common algorithm, indexed by the
algorithm's enum value (SHA-1 is slot 0, SHA-256 is slot 1). -/
structure common_digests_t where
  d : Fin N_COMMON_DIGEST_ALGORITHMS → List Nat

/-- A digest laid into a zeroed `DIGEST256_LEN`-byte slot: the C code zeroes
the whole structure and then writes each digest over the front of its slot,
so shorter digests end up right-padded with zero bytes. -/
def padSlot (bytes : List Nat) : List Nat :=
  (bytes ++ List.replicate DIGEST256_LEN 0).take DIGEST256_LEN

/-- Modelled from the spec: `crypto_common_digests` (`crypto_digest.h`
line 88, body in the missing `crypto_digest.c`): zero the output structure,
then run the SHA-1 one-shot into slot 0 and the SHA-256 one-shot into
slot 1 over the same input. -/
def crypto_common_digests (H : Backend) (m : List Nat) : common_digests_t :=
  { d := fun i =>
      if i.val = 0 then padSlot (crypto_digest H m)
      else padSlot (crypto_digest256 H m .DIGEST_SHA256) }

/-- Modelled from the spec: `crypto_digest_smartlist_prefix`
(`crypto_digest.h` lines 89-93): create one context for `alg`, append the
prepended byte string, then each element of the list in order with no
separator, then the appended byte string, and read out the first `len_out`
bytes of the digest.  A NULL prefix or suffix pointer in C skips that
append, which coincides with appending the empty byte string. -/
def crypto_digest_smartlist_prefix (H : Backend) (len_out : Nat)
    (prepend : List Nat) (lst : List (List Nat)) (append : List Nat)
    (alg : digest_algorithm_t) : List Nat :=
  let d := crypto_digest256_new alg
  let d := crypto_digest_add_bytes d prepend
  let d := lst.foldl crypto_digest_add_bytes d
  let d := crypto_digest_add_bytes d append
  (crypto_digest_get_digest H d len_out).1

/-- Modelled from the spec: `crypto_digest_smartlist` (`crypto_digest.h`
lines 94-96): the same with no prefix. -/
def crypto_digest_smartlist (H : Backend) (len_out : Nat)
    (lst : List (List Nat)) (append : List Nat)
    (alg : digest_algorithm_t) : List Nat :=
  crypto_digest_smartlist_prefix H len_out [] lst append alg

/-- Phase marker of an XOF context (spec section 3): absorbing input, or
squeezing output. -/
inductive XofPhase
  | ABSORBING
  | SQUEEZING
deriving DecidableEq

/-- Error value for an absorb attempted after a squeeze (spec section 7). -/
inductive xof_error
  | InvalidPhase
deriving DecidableEq

/-- The external sponge backend (spec section 6): for an absorbed input, the
unbounded output stream, given byte by byte. -/
abbrev XofBackend := List Nat → Nat → Nat

/-- Modelled from the spec: the opaque sponge state `struct crypto_xof_t`
(`crypto_digest.h` line 70, body in the missing `crypto_digest.c`): the
phase marker, the absorbed bytes, and how far into the output stream the
squeezes have advanced. -/
structure crypto_xof_t where
  phase : XofPhase
  absorbed : List Nat
  offset : Nat
deriving DecidableEq

/-- Modelled from the spec: `crypto_xof_new` (`crypto_digest.h` line 121),
a fresh context in the ABSORBING phase with nothing absorbed. -/
def crypto_xof_new : crypto_xof_t :=
  { phase := .ABSORBING, absorbed := [], offset := 0 }

/-- Modelled from the spec: `crypto_xof_add_bytes` (`crypto_digest.h`
line 122): legal only while ABSORBING; after any squeeze it fails with
`InvalidPhase` and absorbs nothing. -/
def crypto_xof_add_bytes (xof : crypto_xof_t) (data : List Nat) :
    Except xof_error crypto_xof_t :=
  match xof.phase with
  | .ABSORBING =>
      Except.ok { phase := .ABSORBING, absorbed := xof.absorbed ++ data,
                  offset := xof.offset }
  | .SQUEEZING => Except.error xof_error.InvalidPhase

/-- Modelled from the spec: `crypto_xof_squeeze_bytes` (`crypto_digest.h`
line 123): moves the context to SQUEEZING and returns the next `len` bytes
of the output stream determined by the absorbed input, advancing the
stream position. -/
def crypto_xof_squeeze_bytes (X : XofBackend) (xof : crypto_xof_t)
    (len : Nat) : List Nat × crypto_xof_t :=
  ((List.range len).map (fun i => X xof.absorbed (xof.offset + i)),
   { phase := .SQUEEZING, absorbed := xof.absorbed, offset := xof.offset + len })

/-- An operation a caller can invoke on one XOF context. -/
inductive xof_op
  | add (data : List Nat)
  | squeeze (n : Nat)

/-- Result reported by one operation on an XOF context. -/
inductive xof_result
  | ok
  | invalidPhase
deriving DecidableEq

/-- One caller operation applied to an XOF context: a failed absorb leaves
the context as it was and reports `invalidPhase`. -/
def xof_step (X : XofBackend) (x : crypto_xof_t) : xof_op → crypto_xof_t × xof_result
  | .add data =>
      match crypto_xof_add_bytes x data with
      | .ok x2 => (x2, .ok)
      | .error _ => (x, .invalidPhase)
  | .squeeze n => ((crypto_xof_squeeze_bytes X x n).2, .ok)

/-- The context reached after a sequence of caller operations. -/
def xof_exec (X : XofBackend) (x : crypto_xof_t) : List xof_op → crypto_xof_t
  | [] => x
  | op :: ops => xof_exec X (xof_step X x op).1 ops

example : (crypto_xof_squeeze_bytes (fun m i => m.length + i)
    { phase := .ABSORBING, absorbed := [5, 6], offset := 0 } 3).1 =
    [2, 3, 4] := by decide

/-! Helper lemmas shared by several results. -/

/-- Folding `crypto_digest_add_bytes` over a list of byte strings accumulates
their concatenation, in order. -/
theorem foldl_add_bytes (l : List (List Nat)) (c : crypto_digest_t) :
    l.foldl crypto_digest_add_bytes c
      = { algorithm := c.algorithm, accumulated := c.accumulated ++ l.flatten } := by
  induction l generalizing c with
  | nil => simp [crypto_digest_add_bytes]
  | cons hd tl ih => simp [List.foldl_cons, crypto_digest_add_bytes, ih]

/-- `padSlot` right-pads a short digest with zero bytes out to the slot
width. -/
theorem padSlot_spec (bytes : List Nat) (h : bytes.length ≤ DIGEST256_LEN) :
    padSlot bytes = bytes ++ List.replicate (DIGEST256_LEN - bytes.length) 0 := by
  unfold padSlot
  rw [List.take_append_eq_append_take, List.take_of_length_le h, List.take_replicate,
    Nat.min_eq_left (Nat.sub_le _ _)]

/-- Claim C1: Incremental equivalence.  For every algorithm `a` and every
split `m = m1 ++ m2`, creating a digest context for `a`, appending `m1` and
then `m2`, and finalizing yields exactly the same bytes as the one-shot
digest of `m` under `a` (`crypto_digest` / `crypto_digest256` /
`crypto_digest512`), provided the read length covers the backend's output. -/
theorem incremental_equivalence (H : Backend) (a : digest_algorithm_t)
    (m1 m2 : List Nat) (out_len : Nat)
    (hlen : (H a (m1 ++ m2)).length ≤ out_len) :
    (crypto_digest_get_digest H
        (crypto_digest_add_bytes (crypto_digest_add_bytes (crypto_digest256_new a) m1) m2)
        out_len).1
      = oneShotOf H a (m1 ++ m2) := by
  have h1 : crypto_digest_add_bytes (crypto_digest_add_bytes (crypto_digest256_new a) m1) m2
      = { algorithm := a, accumulated := m1 ++ m2 } := by
    simp [crypto_digest_add_bytes, crypto_digest256_new]
  rw [h1]
  show (H a (m1 ++ m2)).take out_len = oneShotOf H a (m1 ++ m2)
  rw [List.take_of_length_le hlen]
  cases a <;> rfl

/-- Closed instance of `incremental_equivalence` at a concrete backend and
input. -/
theorem incremental_equivalence_witness :
    (crypto_digest_get_digest idBackend
        (crypto_digest_add_bytes
          (crypto_digest_add_bytes (crypto_digest256_new .DIGEST_SHA256) [1]) [2, 3])
        5).1
      = oneShotOf idBackend .DIGEST_SHA256 ([1] ++ [2, 3]) :=
  incremental_equivalence idBackend .DIGEST_SHA256 [1] [2, 3] 5 (by decide)

/-- Claim C4: Sequence-digest concatenation identity.  For every algorithm,
prefix, element list and suffix, the sequence digest equals the one-shot
digest of prefix ++ concatenation of the elements ++ suffix, and with no
elements it is the digest of prefix ++ suffix. -/
theorem smartlist_prefix_concat (H : Backend) (alg : digest_algorithm_t)
    (P S : List Nat) (elts : List (List Nat)) (out_len : Nat)
    (hlen : (H alg (P ++ elts.flatten ++ S)).length ≤ out_len) :
    crypto_digest_smartlist_prefix H out_len P elts S alg
      = oneShotOf H alg (P ++ elts.flatten ++ S)
    ∧ (elts = [] →
        crypto_digest_smartlist_prefix H out_len P elts S alg
          = oneShotOf H alg (P ++ S)) := by
  have hmain : crypto_digest_smartlist_prefix H out_len P elts S alg
      = oneShotOf H alg (P ++ elts.flatten ++ S) := by
    simp only [ crypto_digest_smartlist_prefix]
    rw [foldl_add_bytes]
    show (H _ _).take out_len = _
    simp only [crypto_digest_add_bytes, crypto_digest256_new, List.nil_append,
      List.append_assoc]
    rw [List.append_assoc P elts.flatten S] at hlen
    rw [List.take_of_length_le hlen]
    cases alg <;> rfl
  refine ⟨hmain, fun he => ?_⟩
  subst he
  simpa using hmain

/-- Closed instance of `smartlist_prefix_concat` at a concrete backend and
input. -/
theorem smartlist_prefix_concat_witness :
    crypto_digest_smartlist_prefix idBackend 9 [1] [[2], [3, 4]] [5] .DIGEST_SHA3_256
      = oneShotOf idBackend .DIGEST_SHA3_256 ([1] ++ [[2], [3, 4]].flatten ++ [5]) :=
  (smartlist_prefix_concat idBackend .DIGEST_SHA3_256 [1] [5] [[2], [3, 4]] 9 (by decide)).1

/-- Claim C8: Name round-trip.  Parsing the canonical name of every
algorithm returns that algorithm, and every string that is not exactly the
canonical name of some algorithm fails to parse. -/
theorem algorithm_name_roundtrip :
    (∀ a : digest_algorithm_t,
        crypto_digest_algorithm_parse_name (crypto_digest_algorithm_get_name a) = some a)
    ∧ (∀ s : String, (∀ a : digest_algorithm_t, s ≠ crypto_digest_algorithm_get_name a) →
        crypto_digest_algorithm_parse_name s = none) := by
  constructor
  · intro a
    cases a <;> rfl
  · intro s hs
    have h1 : ¬(s = "sha1") := hs .DIGEST_SHA1
    have h2 : ¬(s = "sha256") := hs .DIGEST_SHA256
    have h3 : ¬(s = "sha512") := hs .DIGEST_SHA512
    have h4 : ¬(s = "sha3-256") := hs .DIGEST_SHA3_256
    have h5 : ¬(s = "sha3-512") := hs .DIGEST_SHA3_512
    unfold crypto_digest_algorithm_parse_name
    rw [if_neg h1, if_neg h2, if_neg h3, if_neg h4, if_neg h5]

/-- Closed instance of `algorithm_name_roundtrip`: a string that names no
algorithm fails to parse. -/
theorem algorithm_name_roundtrip_witness :
    crypto_digest_algorithm_parse_name "md5" = none :=
  algorithm_name_roundtrip.2 "md5" (by intro a; cases a <;> decide)

/-- Claim C9: Assignment contract.  With equal algorithms,
`crypto_digest_assign` succeeds and the destination afterwards finalizes to
the source's bytes (the source, a plain value here, is untouched); with
different algorithms it fails with `AlgorithmMismatch` and produces no new
destination state. -/
theorem assign_contract (H : Backend) (dst src : crypto_digest_t) (out_len : Nat) :
    (dst.algorithm = src.algorithm →
        crypto_digest_assign dst src
          = Except.ok { algorithm := dst.algorithm, accumulated := src.accumulated }
        ∧ (crypto_digest_get_digest H
            { algorithm := dst.algorithm, accumulated := src.accumulated } out_len).1
          = (crypto_digest_get_digest H src out_len).1)
    ∧ (dst.algorithm ≠ src.algorithm →
        crypto_digest_assign dst src = Except.error digest_error.AlgorithmMismatch) := by
  constructor
  · intro h
    refine ⟨by simp [crypto_digest_assign, h], ?_⟩
    simp [crypto_digest_get_digest, h]
  · intro h
    simp [crypto_digest_assign, h]

/-- Closed instance of `assign_contract`: a matching assignment succeeds, a
mismatched one fails. -/
theorem assign_contract_witness :
    crypto_digest_assign { algorithm := .DIGEST_SHA1, accumulated := [1] }
        { algorithm := .DIGEST_SHA1, accumulated := [2, 3] }
      = Except.ok { algorithm := .DIGEST_SHA1, accumulated := [2, 3] }
    ∧ crypto_digest_assign { algorithm := .DIGEST_SHA1, accumulated := [1] }
        { algorithm := .DIGEST_SHA256, accumulated := [] }
      = Except.error digest_error.AlgorithmMismatch :=
  ⟨((assign_contract idBackend { algorithm := .DIGEST_SHA1, accumulated := [1] }
      { algorithm := .DIGEST_SHA1, accumulated := [2, 3] } 0).1 rfl).1,
   (assign_contract idBackend { algorithm := .DIGEST_SHA1, accumulated := [1] }
      { algorithm := .DIGEST_SHA256, accumulated := [] } 0).2 (by decide)⟩

/-- Claim C10: digest reads are length-parameterized prefix truncations.
Reading `out_len` bytes from a context returns exactly the first `out_len`
bytes of the full digest (and exactly `out_len` bytes when the backend is
well-formed), and the smartlist digest functions truncate the same way via
their `len_out` parameter. -/
theorem digest_length_truncation (H : Backend) (c : crypto_digest_t) (out_len : Nat)
    (hle : out_len ≤ crypto_digest_algorithm_get_length c.algorithm)
    (hwf : (H c.algorithm c.accumulated).length
        = crypto_digest_algorithm_get_length c.algorithm) :
    (crypto_digest_get_digest H c out_len).1
      = ((crypto_digest_get_digest H c
            (crypto_digest_algorithm_get_length c.algorithm)).1).take out_len
    ∧ (crypto_digest_get_digest H c out_len).1.length = out_len
    ∧ (∀ P S : List Nat, ∀ elts : List (List Nat), ∀ alg : digest_algorithm_t,
        out_len ≤ crypto_digest_algorithm_get_length alg →
        crypto_digest_smartlist_prefix H out_len P elts S alg
          = ( crypto_digest_smartlist_prefix H
                (crypto_digest_algorithm_get_length alg) P elts S alg).take out_len) := by
  refine ⟨?_, ?_, ?_⟩
  · show (H c.algorithm c.accumulated).take out_len
      = ((H c.algorithm c.accumulated).take (crypto_digest_algorithm_get_length c.algorithm)).take out_len
    rw [List.take_take, Nat.min_eq_left hle]
  · show ((H c.algorithm c.accumulated).take out_len).length = out_len
    rw [List.length_take, hwf, Nat.min_eq_left hle]
  · intro P S elts alg hle2
    unfold crypto_digest_smartlist_prefix
    show (H _ _).take out_len = ((H _ _).take (crypto_digest_algorithm_get_length alg)).take out_len
    rw [List.take_take, Nat.min_eq_left hle2]

/-- Closed instance of `digest_length_truncation` at a concrete well-formed
backend. -/
theorem digest_length_truncation_witness :
    (crypto_digest_get_digest padBackend
        { algorithm := .DIGEST_SHA1, accumulated := [1, 2] } 5).1.length = 5 :=
  (digest_length_truncation padBackend { algorithm := .DIGEST_SHA1, accumulated := [1, 2] } 5
      (by decide) (by decide)).2.1

/-- Claim C2: Finalize is non-destructive.  Reading the digest leaves the
context's accumulated state unchanged, two reads with no intervening append
return identical bytes, and after a subsequent non-empty append (with an
injective backend and a read length covering the outputs) the next read
differs from the first and equals the digest of the full accumulated byte
sequence. -/
theorem finalize_nondestructive (H : Backend) (c : crypto_digest_t)
    (out_len : Nat) (extra : List Nat)
    (hinj : Function.Injective (H c.algorithm))
    (hextra : extra ≠ [])
    (hl1 : (H c.algorithm c.accumulated).length ≤ out_len)
    (hl2 : (H c.algorithm (c.accumulated ++ extra)).length ≤ out_len) :
    (crypto_digest_get_digest H c out_len).2 = c
    ∧ (crypto_digest_get_digest H (crypto_digest_get_digest H c out_len).2 out_len).1
        = (crypto_digest_get_digest H c out_len).1
    ∧ (crypto_digest_get_digest H
          (crypto_digest_add_bytes (crypto_digest_get_digest H c out_len).2 extra)
          out_len).1
        ≠ (crypto_digest_get_digest H c out_len).1
    ∧ (crypto_digest_get_digest H
          (crypto_digest_add_bytes (crypto_digest_get_digest H c out_len).2 extra)
          out_len).1
        = (H c.algorithm (c.accumulated ++ extra)).take out_len := by
  refine ⟨rfl, rfl, ?_, rfl⟩
  show (H c.algorithm (c.accumulated ++ extra)).take out_len
      ≠ (H c.algorithm c.accumulated).take out_len
  rw [List.take_of_length_le hl1, List.take_of_length_le hl2]
  intro heq
  have hacc : c.accumulated ++ extra = c.accumulated := hinj heq
  have hlen := congrArg List.length hacc
  simp only [List.length_append] at hlen
  exact hextra (List.eq_nil_of_length_eq_zero (by omega))

/-- Closed instance of `finalize_nondestructive`: after appending one more
byte, the read changes. -/
theorem finalize_nondestructive_witness :
    (crypto_digest_get_digest idBackend
        (crypto_digest_add_bytes
          (crypto_digest_get_digest idBackend
            { algorithm := .DIGEST_SHA1, accumulated := [1] } 4).2 [2]) 4).1
      ≠ (crypto_digest_get_digest idBackend
          { algorithm := .DIGEST_SHA1, accumulated := [1] } 4).1 :=
  (finalize_nondestructive idBackend { algorithm := .DIGEST_SHA1, accumulated := [1] } 4 [2]
      (by intro a b h; exact h) (by decide) (by decide) (by decide)).2.2.1

/-- Claim C3: Duplication independence.  A duplicate is a deep copy: it has
the same algorithm and the same accumulated state (hence finalizes to the
same bytes), and appending distinct byte strings to the original and to the
duplicate (with an injective backend and a covering read length) yields
different finalized digests, so neither append affects the other copy. -/
theorem duplication_independence (H : Backend) (c1 : crypto_digest_t)
    (out_len : Nat) (x y : List Nat)
    (hinj : Function.Injective (H c1.algorithm))
    (hxy : x ≠ y)
    (hlx : (H c1.algorithm (c1.accumulated ++ x)).length ≤ out_len)
    (hly : (H c1.algorithm (c1.accumulated ++ y)).length ≤ out_len) :
    (crypto_digest_dup c1).algorithm = c1.algorithm
    ∧ crypto_digest_dup c1 = c1
    ∧ (crypto_digest_get_digest H (crypto_digest_dup c1) out_len).1
        = (crypto_digest_get_digest H c1 out_len).1
    ∧ (crypto_digest_get_digest H (crypto_digest_add_bytes c1 x) out_len).1
        ≠ (crypto_digest_get_digest H (crypto_digest_add_bytes (crypto_digest_dup c1) y)
            out_len).1 := by
  refine ⟨rfl, rfl, rfl, ?_⟩
  show (H c1.algorithm (c1.accumulated ++ x)).take out_len
      ≠ (H c1.algorithm (c1.accumulated ++ y)).take out_len
  rw [List.take_of_length_le hlx, List.take_of_length_le hly]
  intro heq
  exact hxy (List.append_cancel_left (hinj heq))

/-- Closed instance of `duplication_independence`: distinct appends to the
two copies finalize differently. -/
theorem duplication_independence_witness :
    (crypto_digest_get_digest idBackend
        (crypto_digest_add_bytes { algorithm := .DIGEST_SHA1, accumulated := [1] } [2])
        4).1
      ≠ (crypto_digest_get_digest idBackend
          (crypto_digest_add_bytes
            (crypto_digest_dup { algorithm := .DIGEST_SHA1, accumulated := [1] }) [3])
          4).1 :=
  (duplication_independence idBackend { algorithm := .DIGEST_SHA1, accumulated := [1] } 4
      [2] [3] (by intro a b h; exact h) (by decide) (by decide) (by decide)).2.2.2

/-- Claim C5: Common-digest bundle correctness.  `crypto_common_digests`
fills one `DIGEST256_LEN`-byte slot per common algorithm: the leading
`lengthOf(alg)` bytes of each slot are that algorithm's one-shot digest of
the input, and the trailing bytes of the SHA-1 slot (shorter than the slot
width) are zero. -/
theorem common_digests_correct (H : Backend) (m : List Nat)
    (h1 : (H .DIGEST_SHA1 m).length = DIGEST_LEN)
    (h2 : (H .DIGEST_SHA256 m).length = DIGEST256_LEN) :
    ((crypto_common_digests H m).d 0).length = DIGEST256_LEN
    ∧ ((crypto_common_digests H m).d 1).length = DIGEST256_LEN
    ∧ ((crypto_common_digests H m).d 0).take
          (crypto_digest_algorithm_get_length .DIGEST_SHA1)
        = crypto_digest H m
    ∧ ((crypto_common_digests H m).d 0).drop
          (crypto_digest_algorithm_get_length .DIGEST_SHA1)
        = List.replicate (DIGEST256_LEN - DIGEST_LEN) 0
    ∧ ((crypto_common_digests H m).d 1).take
          (crypto_digest_algorithm_get_length .DIGEST_SHA256)
        = crypto_digest256 H m .DIGEST_SHA256 := by
  have hd0 : (crypto_common_digests H m).d 0 = padSlot (crypto_digest H m) := rfl
  have hd1 : (crypto_common_digests H m).d 1
      = padSlot (crypto_digest256 H m .DIGEST_SHA256) := rfl
  have hcd1 : (crypto_digest H m).length = DIGEST_LEN := h1
  have hcd2 : (crypto_digest256 H m .DIGEST_SHA256).length = DIGEST256_LEN := h2
  have hle1 : (crypto_digest H m).length ≤ DIGEST256_LEN := by
    rw [hcd1]; decide
  have hle2 : (crypto_digest256 H m .DIGEST_SHA256).length ≤ DIGEST256_LEN := hcd2.le
  refine ⟨?_, ?_, ?_, ?_, ?_⟩
  · rw [hd0, padSlot_spec _ hle1]
    simp only [List.length_append, List.length_replicate, hcd1]
    omega
  · rw [hd1, padSlot_spec _ hle2]
    simp only [List.length_append, List.length_replicate, hcd2]
    omega
  · rw [hd0, padSlot_spec _ hle1]
    show List.take DIGEST_LEN _ = _
    rw [List.take_append_eq_append_take, List.take_of_length_le hcd1.le, hcd1,
      Nat.sub_self]
    simp
  · rw [hd0, padSlot_spec _ hle1]
    show List.drop DIGEST_LEN _ = _
    rw [List.drop_append_eq_append_drop, List.drop_eq_nil_of_le hcd1.le, hcd1,
      Nat.sub_self]
    simp
  · rw [hd1, padSlot_spec _ hle2]
    show List.take DIGEST256_LEN _ = _
    rw [List.take_append_eq_append_take, List.take_of_length_le hcd2.le, hcd2,
      Nat.sub_self]
    simp

/-- Closed instance of `common_digests_correct` at a concrete well-formed
backend: the SHA-1 slot's tail is zero padding. -/
theorem common_digests_correct_witness :
    ((crypto_common_digests padBackend [9]).d 0).drop
        (crypto_digest_algorithm_get_length .DIGEST_SHA1)
      = List.replicate (DIGEST256_LEN - DIGEST_LEN) 0 :=
  (common_digests_correct padBackend [9] (by decide) (by decide)).2.2.2.1

/-- One operation cannot leave the SQUEEZING phase: a squeeze stays
SQUEEZING and a failed absorb leaves the context as it was. -/
theorem xof_step_keeps_squeezing (X : XofBackend) (x : crypto_xof_t) (op : xof_op)
    (h : x.phase = XofPhase.SQUEEZING) :
    (xof_step X x op).1.phase = XofPhase.SQUEEZING := by
  cases op with
  | add data => simp [xof_step, crypto_xof_add_bytes, h]
  | squeeze n => simp [xof_step, crypto_xof_squeeze_bytes]

/-- No sequence of operations leaves the SQUEEZING phase. -/
theorem xof_exec_keeps_squeezing (X : XofBackend) (ops : List xof_op)
    (x : crypto_xof_t) (h : x.phase = XofPhase.SQUEEZING) :
    (xof_exec X x ops).phase = XofPhase.SQUEEZING := by
  induction ops generalizing x with
  | nil => simpa [xof_exec] using h
  | cons op ops ih =>
    simp only [xof_exec]
    exact ih _ (xof_step_keeps_squeezing X x op h)

/-- Executing a concatenation of operation lists composes. -/
theorem xof_exec_append (X : XofBackend) (l1 l2 : List xof_op) (x : crypto_xof_t) :
    xof_exec X x (l1 ++ l2) = xof_exec X (xof_exec X x l1) l2 := by
  induction l1 generalizing x with
  | nil => rfl
  | cons op ops ih =>
    simp only [List.cons_append, xof_exec]
    exact ih _

/-- Claim C6: XOF one-way phase law.  In every operation sequence on a
single context in which an absorb comes after some squeeze, that absorb
reports `invalidPhase`, leaves the context unchanged (never silently
absorbs), and `crypto_xof_add_bytes` itself fails with `InvalidPhase` —
the ABSORBING to SQUEEZING transition is irreversible. -/
theorem xof_one_way_phase (X : XofBackend) (ops1 ops2 : List xof_op) (n : Nat)
    (data : List Nat) :
    (xof_step X (xof_exec X crypto_xof_new (ops1 ++ xof_op.squeeze n :: ops2))
        (xof_op.add data)).2
      = xof_result.invalidPhase
    ∧ (xof_step X (xof_exec X crypto_xof_new (ops1 ++ xof_op.squeeze n :: ops2))
        (xof_op.add data)).1
      = xof_exec X crypto_xof_new (ops1 ++ xof_op.squeeze n :: ops2)
    ∧ crypto_xof_add_bytes (xof_exec X crypto_xof_new (ops1 ++ xof_op.squeeze n :: ops2))
        data
      = Except.error xof_error.InvalidPhase := by
  have hsq : (xof_exec X crypto_xof_new (ops1 ++ xof_op.squeeze n :: ops2)).phase
      = XofPhase.SQUEEZING := by
    rw [xof_exec_append]
    simp only [xof_exec]
    refine xof_exec_keeps_squeezing X ops2 _ ?_
    simp [xof_step, crypto_xof_squeeze_bytes]
  refine ⟨?_, ?_, ?_⟩ <;> simp [xof_step, crypto_xof_add_bytes, hsq]

/-- Claim C7: XOF squeeze contiguity.  On a context that absorbed a given
input, squeezing `n1` bytes and then `n2` bytes yields, concatenated,
exactly what a single squeeze of `n1 + n2` bytes on a fresh context with
the same absorbed input yields: the output is one contiguous stream. -/
theorem xof_squeeze_contiguous (X : XofBackend) (input : List Nat) (n1 n2 : Nat)
    (x : crypto_xof_t)
    (hx : crypto_xof_add_bytes crypto_xof_new input = Except.ok x) :
    (crypto_xof_squeeze_bytes X x n1).1
      ++ (crypto_xof_squeeze_bytes X (crypto_xof_squeeze_bytes X x n1).2 n2).1
      = (crypto_xof_squeeze_bytes X x (n1 + n2)).1 := by
  have hx2 : x = { phase := XofPhase.ABSORBING, absorbed := input, offset := 0 } := by
    simp only [crypto_xof_add_bytes, crypto_xof_new, List.nil_append,
      Except.ok.injEq] at hx
    exact hx.symm
  subst hx2
  simp only [crypto_xof_squeeze_bytes, Nat.zero_add, List.range_add, List.map_append,
    List.map_map]
  rfl

/-- Closed instance of `xof_squeeze_contiguous` at a concrete sponge
backend and input. -/
theorem xof_squeeze_contiguous_witness :
    (crypto_xof_squeeze_bytes (fun m i => m.length + i)
        { phase := XofPhase.ABSORBING, absorbed := [4], offset := 0 } 2).1
      ++ (crypto_xof_squeeze_bytes (fun m i => m.length + i)
            (crypto_xof_squeeze_bytes (fun m i => m.length + i)
              { phase := XofPhase.ABSORBING, absorbed := [4], offset := 0 } 2).2 3).1
      = (crypto_xof_squeeze_bytes (fun m i => m.length + i)
          { phase := XofPhase.ABSORBING, absorbed := [4], offset := 0 } (2 + 3)).1 :=
  xof_squeeze_contiguous (fun m i => m.length + i) [4] 2 3
    { phase := XofPhase.ABSORBING, absorbed := [4], offset := 0 } rfl
